import Mathlib

/-!
Verification of the Obfuscated Storage & Access-Mapping Engine and its
surrounding frontend/audit components.

The core engine (ingestion, synthetic-decoy expansion, shuffle-and-store,
mapping table, access resolver, security event emitter) is modelled from the
specification; the CSV-upload view and the PostgreSQL audit trigger are
embedded from the repository sources
(`app/frontend/src/views` CSV upload component, `setup_audit_triggers.sql`).
-/

namespace Obscure

/-- Backend-only provenance tag of a stored record. -/
inductive Tag
  | real
  | synthetic
deriving DecidableEq, Repr

/-- Modelled from the spec: a Record is a tuple of column values, an opaque
physical identifier assigned at storage time, and a provenance tag. -/
structure Record where
  values : List String
  physId : Nat
  tag : Tag
deriving DecidableEq, Repr

/-- Modelled from the spec: the ingestion error taxonomy relevant here. -/
inductive IngestError
  | validationError
  | generationError
deriving DecidableEq, Repr

/-- Modelled from the spec: Ingestion parses a raw tabular payload using the
header row as schema; it fails with `ValidationError` on an empty payload, an
unparsable (empty) header, or a row whose column count differs from the
header's.  Output: the header and the ordered real rows (row order defines
logical indices `0..N-1`). -/
def parseIngestion (payload : List (List String)) :
    Except IngestError (List String × List (List String)) :=
  match payload with
  | [] => .error .validationError
  | header :: rows =>
    if header.isEmpty then .error .validationError
    else if rows.all (fun r => r.length == header.length) then .ok (header, rows)
    else .error .validationError

/-- Modelled from the spec: Shuffle & Store assigns each stored record the
physical identifier drawn at its flat position by the random permutation
`perm` over storage positions.  Real record `i` sits at flat position `i*k`;
its `k-1` decoys (produced by the pluggable generator `gen`) occupy positions
`i*k+1 .. i*k+k-1`. -/
def chunkRecords (gen : List String → Nat → List String) (k : Nat)
    (perm : List Nat) (i : Nat) (row : List String) : List Record :=
  ⟨row, perm.getD (i * k) 0, .real⟩ ::
    (List.range (k - 1)).map
      (fun j => ⟨gen row j, perm.getD (i * k + 1 + j) 0, .synthetic⟩)

/-- Modelled from the spec: concatenation of all real and synthetic records,
with physical identifiers assigned consistently with the permutation. -/
def shuffleStore (gen : List String → Nat → List String) (k : Nat)
    (perm : List Nat) : List (List String) → Nat → List Record
  | [], _ => []
  | row :: rest, i => chunkRecords gen k perm i row ++ shuffleStore gen k perm rest (i + 1)

/-- Modelled from the spec: the Mapping Table built during ingestion, one
`put(logicalIndex, physicalId)` per real record: logical index `i` maps to
the physical identifier of real record `i`. -/
def buildMapping (n k : Nat) (perm : List Nat) : List (Nat × Nat) :=
  (List.range n).map (fun i => (i, perm.getD (i * k) 0))

/-- Modelled from the spec: one complete, internally consistent
`{records, mapping}` version produced by a single ingestion run. -/
structure Generation where
  records : List Record
  mapping : List (Nat × Nat)
  nReal : Nat
deriving DecidableEq, Repr

/-- Modelled from the spec: the generation published for `rows` real records
with decoy multiplier `k` and storage permutation `perm`. -/
def mkGeneration (gen : List String → Nat → List String) (k : Nat)
    (perm : List Nat) (rows : List (List String)) : Generation :=
  ⟨shuffleStore gen k perm rows 0, buildMapping rows.length k perm, rows.length⟩

/-- Modelled from the spec: full ingestion of a raw payload into a published
generation. -/
def buildGeneration (gen : List String → Nat → List String) (k : Nat)
    (perm : List Nat) (payload : List (List String)) :
    Except IngestError Generation :=
  match parseIngestion payload with
  | .error e => .error e
  | .ok (_, rows) => .ok (mkGeneration gen k perm rows)

/-- Modelled from the spec: a new upload publishes a fresh generation and
fully replaces the prior one; a failed ingestion retains the prior
generation untouched. -/
def ingestPublish (gen : List String → Nat → List String) (k : Nat)
    (perm : List Nat) (cur : Option Generation) (payload : List (List String)) :
    Option Generation × Except IngestError Unit :=
  match buildGeneration gen k perm payload with
  | .error e => (cur, .error e)
  | .ok g => (some g, .ok ())

/-- `perm` is a permutation of the storage positions `[0, n)`. -/
def IsPermOf (perm : List Nat) (n : Nat) : Prop :=
  perm.length = n ∧ perm.Nodup ∧ ∀ x ∈ perm, x < n

instance (perm : List Nat) (n : Nat) : Decidable (IsPermOf perm n) := by
  unfold IsPermOf; infer_instance

/-- Modelled from the spec: the Mapping Table read path,
`resolve(logicalIndex) → physicalId | NotFound`. -/
def Generation.resolve (g : Generation) (i : Nat) : Option Nat :=
  g.mapping.lookup i

/-- Modelled from the spec: fetch a stored row by physical identifier. -/
def Generation.fetch (g : Generation) (pid : Nat) : Option Record :=
  g.records.find? (fun r => r.physId == pid)

/-- Whether a physical identifier is the target of some mapping entry. -/
def Generation.isMappingTarget (g : Generation) (pid : Nat) : Bool :=
  g.mapping.any (fun e => e.2 == pid)

/-- Modelled from the spec: a row-read request is either a logical index in
the public index space or a direct physical-identifier probe. -/
inductive Request
  | logical (i : Nat)
  | physical (pid : Nat)
deriving DecidableEq, Repr

/-- Modelled from the spec: `getRow(logicalIndex) → record | AccessDenied`;
denial and not-found share one uniform shape, and a resolved-but-unreadable
row is the distinct `IntegrityFault`. -/
inductive Response
  | record (values : List String)
  | accessDenied
  | integrityFault
deriving DecidableEq, Repr

/-- Resolution status recorded in an access event. -/
inductive Status
  | authorized
  | unauthorized
deriving DecidableEq, Repr

/-- Modelled from the spec: AccessEvent is
(timestamp, requested identifier, resolution status, caller principal). -/
structure AccessEvent where
  timestamp : Nat
  requestedId : Nat
  status : Status
  caller : String
deriving DecidableEq, Repr

/-- The identifier named by a request. -/
def requestedIdOf : Request → Nat
  | .logical i => i
  | .physical pid => pid

/-- Modelled from the spec: the Resolver's classification.  Only a logical
index that the Mapping Table resolves is authorized; a request naming a
physical identifier directly is never authorized, regardless of whether that
identifier happens to back a real row. -/
def Generation.classify (g : Generation) (req : Request) : Option Nat :=
  match req with
  | .logical i => g.resolve i
  | .physical _ => none

/-- Modelled from the spec: the Query/Access Resolver.  An authorized hit is
served with one AUTHORIZED event; an unauthorized request gets the uniform
denial with exactly one UNAUTHORIZED event carrying the requested identifier;
a valid mapping hit whose row cannot be read is an `IntegrityFault`, never a
security event. -/
def handleRequest (g : Generation) (now : Nat) (caller : String)
    (req : Request) : Response × List AccessEvent :=
  match g.classify req with
  | some pid =>
    match g.fetch pid with
    | some r => (.record r.values, [⟨now, requestedIdOf req, .authorized, caller⟩])
    | none => (.integrityFault, [])
  | none => (.accessDenied, [⟨now, requestedIdOf req, .unauthorized, caller⟩])

/-- Modelled from the spec: state of one in-flight unauthorized request in
the Security Event Emitter: the durably recorded events, the event held for
retry, and the response delivered to the caller (if any). -/
structure DenialState where
  recorded : List AccessEvent
  pending : Option AccessEvent
  delivered : Option Response
deriving DecidableEq, Repr

/-- Initial state: the UNAUTHORIZED event is pending, nothing recorded,
nothing delivered. -/
def denialInit (e : AccessEvent) : DenialState := ⟨[], some e, none⟩

/-- Modelled from the spec: one step of the fail-closed emitter.  If the
durable sink is up, the pending event is appended and only then is the denial
delivered; if the sink is unavailable the event is held for retry and no
response goes out. -/
def denialStep (sinkUp : Bool) (s : DenialState) : DenialState :=
  match s.pending with
  | none => s
  | some e => if sinkUp then ⟨s.recorded ++ [e], none, some .accessDenied⟩ else s

/-- Run the emitter over a trace of sink availabilities. -/
def runDenial (e : AccessEvent) (trace : List Bool) : DenialState :=
  trace.foldl (fun s b => denialStep b s) (denialInit e)

end Obscure

namespace CSVUpload

/-- JavaScript `Math.round` on a nonnegative rational `num / den`
(`den ≠ 0`): the floor of `num / den + 1/2`, halves rounding up. -/
def jsRound (num den : Nat) : Nat := (2 * num + den) / (2 * den)

/-- The true-row count displayed by the CSV upload view after a successful
upload: `this.dataPerTrue ? Math.round(response.data.rows / this.dataPerTrue)
: response.data.rows`. -/
def trueRowsDisplayed (rows dataPerTrue : Nat) : Nat :=
  if dataPerTrue ≠ 0 then jsRound rows dataPerTrue else rows

/-- The component's `dataPerTrue` after `mounted()`: the value served by
`/config` when it is a number, otherwise the default 100. -/
def mountedDataPerTrue (config : Option Nat) : Nat :=
  match config with
  | some k => k
  | none => 100

end CSVUpload

namespace Audit

/-- A table row as a JSONB-style object: column name to value.  `to_jsonb`
of a row is the row itself. -/
abbrev Row := List (String × String)

/-- The trigger operation `TG_OP`. -/
inductive Op
  | ins
  | upd
  | del
deriving DecidableEq, Repr

/-- The `TG_OP` string of an operation. -/
def opString : Op → String
  | .ins => "INSERT"
  | .upd => "UPDATE"
  | .del => "DELETE"

/-- JSONB field access `j -> key`: SQL NULL (`none`) when absent. -/
def jsonbGet (r : Row) (k : String) : Option String := r.lookup k

/-- The rows produced by
`SELECT ... FROM jsonb_each(new_json) WHERE (old_json->key) IS DISTINCT FROM
(new_json->key)`, each aggregated as
`key, jsonb_build_object('old', old_json->key, 'new', new_json->key)`. -/
def changedEntries (oldJ newJ : Row) : List (String × Option String × Option String) :=
  newJ.filterMap (fun kv =>
    if jsonbGet oldJ kv.1 = jsonbGet newJ kv.1 then none
    else some (kv.1, jsonbGet oldJ kv.1, jsonbGet newJ kv.1))

/-- `jsonb_object_agg` over those rows, assigned by `SELECT ... INTO`:
the aggregate of zero rows is SQL NULL (`none`), which overwrites the
variable's initial `'{}'`. -/
def aggChangedFields (oldJ newJ : Row) :
    Option (List (String × Option String × Option String)) :=
  match changedEntries oldJ newJ with
  | [] => none
  | l => some l

/-- The final value of the `changed_fields` variable: computed only for
UPDATE; for INSERT and DELETE it keeps its initialization `'{}'::JSONB`
(the empty object, `some []`). -/
def changedFieldsFor (op : Op) (oldJ newJ : Row) :
    Option (List (String × Option String × Option String)) :=
  match op with
  | .upd => aggChangedFields oldJ newJ
  | _ => some []

/-- One row of the `audit_log` table as inserted by the trigger (the
`timestamp` column is filled by a table default, not by the trigger). -/
structure AuditEntry where
  tableName : String
  operation : String
  oldData : Option Row
  newData : Option Row
  changedFields : Option (List (String × Option String × Option String))
  userName : String
  applicationName : Option String
  clientAddress : Option String
  transactionId : Nat
  rowId : Option String
deriving DecidableEq, Repr

/-- Trigger invocation context: `TG_OP`, `TG_TABLE_NAME`, the OLD/NEW
records, the primary-key column found in `information_schema` (if any), and
the session facts the trigger reads (`current_user`,
`current_setting('application_name', true)`, `inet_client_addr()`,
`txid_current()`). -/
structure TriggerCtx where
  op : Op
  tg_table_name : String
  oldRow : Row
  newRow : Row
  pkColumn : Option String
  currentUser : String
  appName : Option String
  clientAddr : Option String
  txId : Nat
deriving DecidableEq, Repr

/-- `EXECUTE format('SELECT ($1).%I', table_pk_column) INTO row_id_value`:
the pk column's value of the given record, or NULL when no primary key
column was found. -/
def rowIdOf (pk : Option String) (r : Row) : Option String :=
  match pk with
  | none => none
  | some c => jsonbGet r c

/-- Embedding of `audit_trigger_function()` from `setup_audit_triggers.sql`:
returns the record the function returns (NEW for INSERT/UPDATE, OLD for
DELETE) and the `audit_log` table after the invocation.  An INSERT whose
`application_name` is `'frontend'` returns NEW immediately without logging;
every other invocation appends exactly one `audit_log` row. -/
def audit_trigger_function (ctx : TriggerCtx) (log : List AuditEntry) :
    Row × List AuditEntry :=
  if ctx.op = .ins ∧ ctx.appName = some "frontend" then
    (ctx.newRow, log)
  else
    let oldJ : Option Row :=
      match ctx.op with
      | .ins => none
      | _ => some ctx.oldRow
    let newJ : Option Row :=
      match ctx.op with
      | .del => none
      | _ => some ctx.newRow
    let rid : Option String :=
      match ctx.op with
      | .del => rowIdOf ctx.pkColumn ctx.oldRow
      | _ => rowIdOf ctx.pkColumn ctx.newRow
    let entry : AuditEntry :=
      ⟨ctx.tg_table_name, opString ctx.op, oldJ, newJ,
        changedFieldsFor ctx.op ctx.oldRow ctx.newRow,
        ctx.currentUser, ctx.appName, ctx.clientAddr, ctx.txId, rid⟩
    (match ctx.op with | .del => ctx.oldRow | _ => ctx.newRow, log ++ [entry])

/-- The entries of a `changed_fields` value; SQL NULL has none. -/
def cfEntries (cf : Option (List (String × Option String × Option String))) :
    List (String × Option String × Option String) :=
  match cf with
  | none => []
  | some l => l

end Audit

namespace Obscure

/-- A concrete pluggable decoy generator used in witnesses. -/
def sampleGen : List String → Nat → List String :=
  fun row j => row.map (fun s => s ++ toString j)

/-- A concrete storage permutation of `[0, 4)` used in witnesses. -/
def samplePerm : List Nat := [2, 0, 3, 1]

/-- Two concrete real rows used in witnesses. -/
def sampleRows : List (List String) := [["1", "2"], ["3", "4"]]

/-- A concrete raw payload (header plus `sampleRows`) used in witnesses. -/
def samplePayload : List (List String) := ["a", "b"] :: sampleRows

/-- A concrete unauthorized access event used in witnesses. -/
def sampleEvent : AccessEvent := ⟨7, 5, .unauthorized, "alice"⟩

end Obscure

namespace Audit

/-- A concrete UPDATE invocation used in witnesses. -/
def sampleUpdateCtx : TriggerCtx :=
  ⟨.upd, "Users", [("id", "1"), ("name", "bob")], [("id", "1"), ("name", "carol")],
    some "id", "postgres", some "psql", some "10.0.0.1", 42⟩

/-- A concrete frontend INSERT invocation used in witnesses. -/
def sampleFrontendCtx : TriggerCtx :=
  ⟨.ins, "Users", [], [("id", "2"), ("name", "dan")],
    some "id", "postgres", some "frontend", none, 43⟩

end Audit

namespace Obscure

theorem lookup_append (a : Nat) (l1 l2 : List (Nat × Nat)) :
    List.lookup a (l1 ++ l2) =
      (match List.lookup a l1 with
       | some b => some b
       | none => List.lookup a l2) := by
  induction l1 with
  | nil => simp [List.lookup]
  | cons kv rest ih =>
    simp only [List.cons_append, List.lookup]
    by_cases h : a == kv.1
    · simp [h]
    · simp only [h]
      exact ih

theorem lookup_range_map (f : Nat → Nat) (n i : Nat) :
    List.lookup i ((List.range n).map (fun j => (j, f j))) =
      if i < n then some (f i) else none := by
  induction n with
  | zero => simp [List.lookup]
  | succ m ih =>
    rw [List.range_succ, List.map_append, lookup_append, ih]
    by_cases h1 : i < m
    · simp [h1, Nat.lt_succ_of_lt h1]
    · by_cases h2 : i = m
      · subst h2
        simp [List.lookup, Nat.lt_irrefl, Nat.lt_succ_self]
      · have h3 : ¬ i < m + 1 := by omega
        have h4 : (i == m) = false := by simp [h2]
        simp [h1, h3, List.lookup, h4]

theorem getD_inj (perm : List Nat) (hnd : perm.Nodup) (a b : Nat)
    (ha : a < perm.length) (hb : b < perm.length)
    (heq : perm.getD a 0 = perm.getD b 0) : a = b := by
  rw [perm.getD_eq_getElem 0 ha, perm.getD_eq_getElem 0 hb] at heq
  exact hnd.getElem_inj_iff.mp heq

theorem resolve_mkGeneration (gen : List String → Nat → List String)
    (k : Nat) (perm : List Nat) (rows : List (List String)) (i : Nat) :
    (mkGeneration gen k perm rows).resolve i =
      if i < rows.length then some (perm.getD (i * k) 0) else none := by
  show List.lookup i (buildMapping rows.length k perm) = _
  unfold buildMapping
  exact lookup_range_map (fun j => perm.getD (j * k) 0) rows.length i

theorem mem_shuffleStore (gen : List String → Nat → List String) (k : Nat)
    (perm : List Nat) (reals : List (List String)) (i0 : Nat) (r : Record)
    (h : r ∈ shuffleStore gen k perm reals i0) :
    ∃ i, i0 ≤ i ∧ i < i0 + reals.length ∧
      ((r.tag = .real ∧ r.physId = perm.getD (i * k) 0) ∨
       (∃ j, j < k - 1 ∧ r.tag = .synthetic ∧
          r.physId = perm.getD (i * k + 1 + j) 0)) := by
  induction reals generalizing i0 with
  | nil => simp [shuffleStore] at h
  | cons row rest ih =>
    simp only [shuffleStore, List.mem_append] at h
    cases h with
    | inl hc =>
      refine ⟨i0, le_refl _, by simp, ?_⟩
      simp only [chunkRecords, List.mem_cons, List.mem_map, List.mem_range] at hc
      cases hc with
      | inl he =>
        subst he
        exact Or.inl ⟨rfl, rfl⟩
      | inr he =>
        obtain ⟨j, hj, he⟩ := he
        subst he
        exact Or.inr ⟨j, hj, rfl, rfl⟩
    | inr hrest =>
      obtain ⟨i, h1, h2, h3⟩ := ih (i0 + 1) hrest
      exact ⟨i, by omega, by simp only [List.length_cons]; omega, h3⟩

theorem real_mem_shuffleStore (gen : List String → Nat → List String) (k : Nat)
    (perm : List Nat) (reals : List (List String)) (i0 i : Nat)
    (hi : i < reals.length) :
    ∃ row, (⟨row, perm.getD ((i0 + i) * k) 0, .real⟩ : Record) ∈
      shuffleStore gen k perm reals i0 := by
  induction reals generalizing i0 i with
  | nil => simp at hi
  | cons row rest ih =>
    cases i with
    | zero =>
      refine ⟨row, ?_⟩
      simp [shuffleStore, chunkRecords]
    | succ m =>
      have hm : m < rest.length := by
        simp only [List.length_cons] at hi
        omega
      obtain ⟨row2, hmem⟩ := ih (i0 + 1) m hm
      refine ⟨row2, ?_⟩
      simp only [shuffleStore, List.mem_append]
      right
      have harith : i0 + 1 + m = i0 + (m + 1) := by omega
      rw [harith] at hmem
      exact hmem

theorem length_shuffleStore (gen : List String → Nat → List String) (k : Nat)
    (perm : List Nat) (reals : List (List String)) (i0 : Nat) (hk : 1 ≤ k) :
    (shuffleStore gen k perm reals i0).length = reals.length * k := by
  induction reals generalizing i0 with
  | nil => simp [shuffleStore]
  | cons row rest ih =>
    have hdist : (rest.length + 1) * k = rest.length * k + k := by ring
    simp only [shuffleStore, List.length_append, chunkRecords, List.length_cons,
      List.length_map, List.length_range, ih (i0 + 1)]
    omega

end Obscure

namespace Obscure

/-- C1: for every published generation with N real records and every logical
index i in [0, N), resolve(i) returns the physical identifier of a
REAL-tagged record; no resolve result ever surfaces a SYNTHETIC-tagged
record. -/
theorem resolve_hits_real_only (gen : List String → Nat → List String)
    (k : Nat) (perm : List Nat) (rows : List (List String)) (hk : 1 ≤ k)
    (hperm : IsPermOf perm (rows.length * k)) (i : Nat) (hi : i < rows.length) :
    ∃ pid r, (mkGeneration gen k perm rows).resolve i = some pid ∧
      (mkGeneration gen k perm rows).fetch pid = some r ∧ r.tag = .real := by
  obtain ⟨hlen, hnd, -⟩ := hperm
  have hres : (mkGeneration gen k perm rows).resolve i = some (perm.getD (i * k) 0) := by
    rw [resolve_mkGeneration]
    simp [hi]
  obtain ⟨row, hmem⟩ := real_mem_shuffleStore gen k perm rows 0 i hi
  rw [Nat.zero_add] at hmem
  have hsome : ((mkGeneration gen k perm rows).records.find?
      (fun r => r.physId == perm.getD (i * k) 0)).isSome := by
    apply List.find?_isSome.mpr
    exact ⟨_, hmem, by simp⟩
  obtain ⟨r, hr⟩ := Option.isSome_iff_exists.mp hsome
  have hrmem : r ∈ (mkGeneration gen k perm rows).records := List.mem_of_find?_eq_some hr
  have hrpid : r.physId = perm.getD (i * k) 0 := by
    have := List.find?_some hr
    simpa using this
  refine ⟨perm.getD (i * k) 0, r, hres, hr, ?_⟩
  obtain ⟨i2, -, hi2, hcase⟩ := mem_shuffleStore gen k perm rows 0 r hrmem
  rw [Nat.zero_add] at hi2
  cases hcase with
  | inl hreal => exact hreal.1
  | inr hsynth =>
    exfalso
    obtain ⟨j, hj, -, hpid⟩ := hsynth
    have hb1 : i2 * k + 1 + j < rows.length * k := by
      have h1 : i2 * k + 1 + j < (i2 + 1) * k := by
        have : (i2 + 1) * k = i2 * k + k := by ring
        omega
      have h2 : (i2 + 1) * k ≤ rows.length * k := Nat.mul_le_mul_right k (by omega)
      omega
    have hb2 : i * k < rows.length * k := by
      have h2 : (i + 1) * k ≤ rows.length * k := Nat.mul_le_mul_right k (by omega)
      have : (i + 1) * k = i * k + k := by ring
      omega
    have heqidx : i2 * k + 1 + j = i * k := by
      apply getD_inj perm hnd _ _ (by omega) (by omega)
      rw [← hpid, hrpid]
    rcases le_or_lt i i2 with hle | hlt
    · have : i * k ≤ i2 * k := Nat.mul_le_mul_right k hle
      omega
    · have h3 : (i2 + 1) * k ≤ i * k := Nat.mul_le_mul_right k (by omega)
      have h4 : (i2 + 1) * k = i2 * k + k := by ring
      omega

end Obscure

namespace Obscure

/-- C1 witness: on a concrete generation of two real rows with
dataPerTrue = 2, resolve(0) hits a REAL-tagged record. -/
theorem resolve_hits_real_only_witness :
    ∃ pid r, (mkGeneration sampleGen 2 samplePerm sampleRows).resolve 0 = some pid ∧
      (mkGeneration sampleGen 2 samplePerm sampleRows).fetch pid = some r ∧
      r.tag = .real :=
  resolve_hits_real_only sampleGen 2 samplePerm sampleRows (by decide)
    (by decide) 0 (by decide)

/-- C2: for every ingestion of N real rows with configured dataPerTrue = k
(k ≥ 1), the published generation stores exactly N·k rows in total and its
Mapping Table contains exactly N entries. -/
theorem generation_row_and_mapping_counts (gen : List String → Nat → List String)
    (k : Nat) (perm : List Nat) (payload : List (List String)) (g : Generation)
    (hk : 1 ≤ k) (hbuild : buildGeneration gen k perm payload = .ok g) :
    g.records.length = g.nReal * k ∧ g.mapping.length = g.nReal := by
  unfold buildGeneration at hbuild
  cases hp : parseIngestion payload with
  | error e => rw [hp] at hbuild; exact absurd hbuild (by simp)
  | ok pr =>
    rw [hp] at hbuild
    obtain ⟨rfl⟩ : mkGeneration gen k perm pr.2 = g := by
      simpa using hbuild
    constructor
    · exact length_shuffleStore gen k perm pr.2 0 hk
    · simp [mkGeneration, buildMapping]

/-- C2 witness: ingesting two real rows with dataPerTrue = 2 stores 4 rows
and builds 2 mapping entries. -/
theorem generation_row_and_mapping_counts_witness :
    (mkGeneration sampleGen 2 samplePerm sampleRows).records.length =
        (mkGeneration sampleGen 2 samplePerm sampleRows).nReal * 2 ∧
      (mkGeneration sampleGen 2 samplePerm sampleRows).mapping.length =
        (mkGeneration sampleGen 2 samplePerm sampleRows).nReal :=
  generation_row_and_mapping_counts sampleGen 2 samplePerm samplePayload
    (mkGeneration sampleGen 2 samplePerm sampleRows) (by decide) rfl

/-- C3: within one generation the mapping from logical index to physical
identifier is injective: distinct logical indices in [0, N) resolve to
different physical identifiers, so each physical identifier is the target of
at most one logical index. -/
theorem mapping_injective (gen : List String → Nat → List String)
    (k : Nat) (perm : List Nat) (rows : List (List String)) (hk : 1 ≤ k)
    (hperm : IsPermOf perm (rows.length * k)) (i j : Nat)
    (hi : i < rows.length) (hj : j < rows.length) (hne : i ≠ j) :
    (mkGeneration gen k perm rows).resolve i ≠
      (mkGeneration gen k perm rows).resolve j := by
  obtain ⟨hlen, hnd, -⟩ := hperm
  rw [resolve_mkGeneration, resolve_mkGeneration]
  simp only [hi, hj, if_pos]
  intro hcon
  have hgd : perm.getD (i * k) 0 = perm.getD (j * k) 0 := by
    simpa using hcon
  have hbi : i * k < rows.length * k := by
    have h2 : (i + 1) * k ≤ rows.length * k := Nat.mul_le_mul_right k (by omega)
    have h3 : (i + 1) * k = i * k + k := by ring
    omega
  have hbj : j * k < rows.length * k := by
    have h2 : (j + 1) * k ≤ rows.length * k := Nat.mul_le_mul_right k (by omega)
    have h3 : (j + 1) * k = j * k + k := by ring
    omega
  have heq : i * k = j * k := getD_inj perm hnd _ _ (by omega) (by omega) hgd
  exact hne (Nat.eq_of_mul_eq_mul_right (by omega) heq)

/-- C3 witness: on a concrete generation, logical indices 0 and 1 resolve
to different physical identifiers. -/
theorem mapping_injective_witness :
    (mkGeneration sampleGen 2 samplePerm sampleRows).resolve 0 ≠
      (mkGeneration sampleGen 2 samplePerm sampleRows).resolve 1 :=
  mapping_injective sampleGen 2 samplePerm sampleRows (by decide) (by decide)
    0 1 (by decide) (by decide) (by decide)

end Obscure

namespace Obscure

/-- C4: every request addressing a physical identifier that is not a
mapping target, or a logical index outside [0, N), yields the
UnauthorizedAccess denial and appends exactly one UNAUTHORIZED AccessEvent
carrying the requested identifier, and no other security event. -/
theorem unauthorized_denied_single_event (gen : List String → Nat → List String)
    (k : Nat) (perm : List Nat) (rows : List (List String))
    (now : Nat) (caller : String) (req : Request)
    (h : (∃ pid, req = .physical pid ∧
            (mkGeneration gen k perm rows).isMappingTarget pid = false) ∨
         (∃ i, req = .logical i ∧ rows.length ≤ i)) :
    handleRequest (mkGeneration gen k perm rows) now caller req =
      (.accessDenied, [⟨now, requestedIdOf req, .unauthorized, caller⟩]) := by
  have hclass : (mkGeneration gen k perm rows).classify req = none := by
    rcases h with ⟨pid, hreq, -⟩ | ⟨i, hreq, hge⟩
    · subst hreq; rfl
    · subst hreq
      show (mkGeneration gen k perm rows).resolve i = none
      rw [resolve_mkGeneration]
      simp
      omega
  unfold handleRequest
  rw [hclass]

/-- C4 witness: on a generation with N = 2 real rows, getRow(5) is denied
with exactly one UNAUTHORIZED event carrying identifier 5. -/
theorem unauthorized_denied_single_event_witness :
    handleRequest (mkGeneration sampleGen 2 samplePerm sampleRows) 7 "alice"
        (.logical 5) =
      (.accessDenied, [⟨7, 5, .unauthorized, "alice"⟩]) :=
  unauthorized_denied_single_event sampleGen 2 samplePerm sampleRows 7 "alice"
    (.logical 5) (Or.inr ⟨5, rfl, by decide⟩)

/-- C5: every denied request gets the same uniform denial shape: any two
unauthorized requests (for example an out-of-range logical index and a
direct physical-identifier probe that names a real row) receive equal
responses, so the response cannot distinguish wrong index from right index
reached by the wrong path. -/
theorem uniform_denial_indistinguishable (g : Generation)
    (now1 now2 : Nat) (caller1 caller2 : String) (r1 r2 : Request)
    (h1 : g.classify r1 = none) (h2 : g.classify r2 = none) :
    (handleRequest g now1 caller1 r1).1 = (handleRequest g now2 caller2 r2).1 := by
  unfold handleRequest
  rw [h1, h2]

/-- C5 witness: the response to out-of-range getRow(5) equals the response
to a direct probe of physical identifier 2, which backs a real row. -/
theorem uniform_denial_indistinguishable_witness :
    (handleRequest (mkGeneration sampleGen 2 samplePerm sampleRows) 7 "alice"
        (.logical 5)).1 =
      (handleRequest (mkGeneration sampleGen 2 samplePerm sampleRows) 8 "bob"
        (.physical 2)).1 :=
  uniform_denial_indistinguishable (mkGeneration sampleGen 2 samplePerm sampleRows)
    7 8 "alice" "bob" (.logical 5) (.physical 2) (by decide) rfl

theorem denial_inv (e : AccessEvent) (trace : List Bool) (s : DenialState)
    (hA : s.pending = none ∨ s.pending = some e)
    (hB : s.delivered ≠ none → e ∈ s.recorded) :
    ((trace.foldl (fun t b => denialStep b t) s).pending = none ∨
      (trace.foldl (fun t b => denialStep b t) s).pending = some e) ∧
    ((trace.foldl (fun t b => denialStep b t) s).delivered ≠ none →
      e ∈ (trace.foldl (fun t b => denialStep b t) s).recorded) := by
  induction trace generalizing s with
  | nil => exact ⟨hA, hB⟩
  | cons b ts ih =>
    simp only [List.foldl_cons]
    apply ih
    · cases hp : s.pending with
      | none => simp [denialStep, hp, hA]
      | some x =>
        have hx : x = e := by
          rcases hA with h | h
          · rw [hp] at h; cases h
          · rw [hp] at h; injection h
        subst hx
        cases b with
        | true => simp [denialStep, hp]
        | false =>
          have hstep : denialStep false s = s := by simp [denialStep, hp]
          rw [hstep]
          exact hA
    · cases hp : s.pending with
      | none => simpa [denialStep, hp] using hB
      | some x =>
        have hx : x = e := by
          rcases hA with h | h
          · rw [hp] at h; cases h
          · rw [hp] at h; injection h
        subst hx
        cases b with
        | true => simp [denialStep, hp]
        | false => simpa [denialStep, hp] using hB

/-- C6: in every execution of the fail-closed emitter, the UNAUTHORIZED_DENY
response is delivered only after the corresponding UNAUTHORIZED AccessEvent
has been durably recorded, over every trace of sink availability, including
traces where the durable sink is unavailable. -/
theorem denial_only_after_durable_record (e : AccessEvent) (trace : List Bool)
    (h : (runDenial e trace).delivered ≠ none) :
    e ∈ (runDenial e trace).recorded := by
  exact (denial_inv e trace (denialInit e) (Or.inr rfl) (by intro hc; exact absurd rfl hc)).2 h

/-- C6 witness: on a trace where the sink is down then up, the denial is
delivered and the event is durably recorded. -/
theorem denial_only_after_durable_record_witness :
    sampleEvent ∈ (runDenial sampleEvent [false, true]).recorded :=
  denial_only_after_durable_record sampleEvent [false, true] (by decide)

/-- C8: every ingestion whose raw payload is empty, whose header is
unparsable, or that has a row whose column count differs from the header's
fails with ValidationError and leaves the previously published generation
completely unchanged. -/
theorem validation_error_retains_generation (gen : List String → Nat → List String)
    (k : Nat) (perm : List Nat) (cur : Option Generation)
    (payload : List (List String))
    (h : payload = [] ∨ (∃ header rest, payload = header :: rest ∧
          (header = [] ∨ ∃ row ∈ rest, row.length ≠ header.length))) :
    ingestPublish gen k perm cur payload = (cur, .error .validationError) := by
  have hparse : parseIngestion payload = .error .validationError := by
    rcases h with h0 | ⟨header, rest, hp, hcase⟩
    · subst h0; rfl
    · subst hp
      unfold parseIngestion
      rcases hcase with hh | ⟨row, hr, hne⟩
      · subst hh; simp
      · by_cases he : header.isEmpty
        · simp [he]
        · have hall : rest.all (fun r => r.length == header.length) = false := by
            rw [Bool.eq_false_iff]
            intro hall
            rw [List.all_eq_true] at hall
            have hcon := hall row hr
            simp at hcon
            exact hne hcon
          simp [he, hall]
  unfold ingestPublish buildGeneration
  rw [hparse]

/-- C8 witness: ingesting a payload with a mismatched row keeps the prior
generation and reports ValidationError. -/
theorem validation_error_retains_generation_witness :
    ingestPublish sampleGen 2 samplePerm
        (some (mkGeneration sampleGen 2 samplePerm sampleRows))
        [["a"], ["1", "2"]] =
      (some (mkGeneration sampleGen 2 samplePerm sampleRows),
        .error .validationError) :=
  validation_error_retains_generation sampleGen 2 samplePerm
    (some (mkGeneration sampleGen 2 samplePerm sampleRows)) [["a"], ["1", "2"]]
    (Or.inr ⟨["a"], [["1", "2"]], rfl, Or.inr ⟨["1", "2"], by simp, by decide⟩⟩)

end Obscure

namespace CSVUpload

/-- C7 counterexample: the upload view displays Math.round(rows /
dataPerTrue); for a response reporting 5 rows with dataPerTrue = 3 the
displayed count is 2, which is not the quotient 5 / 3. -/
theorem displayed_neq_quotient_counterexample :
    trueRowsDisplayed 5 3 ≠ 5 / 3 := by decide

/-- C7 amended: for every successful upload response reporting rows and
every configured dataPerTrue = k ≥ 1, the UI displays
Math.round(rows / k) (the nearest integer, halves rounding up); in
particular, when k divides rows the displayed value is exactly the quotient
rows / k. -/
theorem displayed_is_round (rows k : Nat) (hk : 1 ≤ k) :
    trueRowsDisplayed rows k = jsRound rows k ∧
      (k ∣ rows → trueRowsDisplayed rows k = rows / k) := by
  have hk0 : k ≠ 0 := by omega
  refine ⟨by simp [trueRowsDisplayed, hk0], ?_⟩
  rintro ⟨q, hq⟩
  subst hq
  have h1 : 2 * (k * q) + k = k * (2 * q + 1) := by ring
  have h2 : 2 * k = k * 2 := by ring
  have h3 : jsRound (k * q) k = (2 * q + 1) / 2 := by
    unfold jsRound
    rw [h1, h2, Nat.mul_div_mul_left _ _ (by omega : 0 < k)]
  have h4 : (2 * q + 1) / 2 = q := by omega
  have h5 : k * q / k = q := Nat.mul_div_cancel_left q (by omega)
  simp [trueRowsDisplayed, hk0, h3, h4, h5]

/-- C7 witness: 50 uploaded rows with dataPerTrue = 5 display exactly
10 true rows. -/
theorem displayed_is_round_witness : trueRowsDisplayed 50 5 = 50 / 5 :=
  (displayed_is_round 50 5 (by decide)).2 (by decide)

end CSVUpload

namespace Audit

/-- C9: an INSERT on an audited table executed with application_name set to
'frontend' makes audit_trigger_function return NEW without inserting any row
into audit_log; every other audited INSERT, UPDATE or DELETE appends exactly
one audit_log row recording the table name, operation, old/new data, user,
application, client address, transaction id and row identifier. -/
theorem audit_trigger_frontend_skip_and_log (ctx : TriggerCtx)
    (log : List AuditEntry) :
    (ctx.op = .ins ∧ ctx.appName = some "frontend" →
      audit_trigger_function ctx log = (ctx.newRow, log)) ∧
    (¬(ctx.op = .ins ∧ ctx.appName = some "frontend") →
      ∃ e, (audit_trigger_function ctx log).2 = log ++ [e] ∧
        e.tableName = ctx.tg_table_name ∧
        e.operation = opString ctx.op ∧
        e.userName = ctx.currentUser ∧
        e.applicationName = ctx.appName ∧
        e.clientAddress = ctx.clientAddr ∧
        e.transactionId = ctx.txId ∧
        (ctx.op = .ins → e.oldData = none ∧ e.newData = some ctx.newRow ∧
          e.rowId = rowIdOf ctx.pkColumn ctx.newRow) ∧
        (ctx.op = .upd → e.oldData = some ctx.oldRow ∧ e.newData = some ctx.newRow ∧
          e.rowId = rowIdOf ctx.pkColumn ctx.newRow) ∧
        (ctx.op = .del → e.oldData = some ctx.oldRow ∧ e.newData = none ∧
          e.rowId = rowIdOf ctx.pkColumn ctx.oldRow)) := by
  constructor
  · intro hskip
    simp [audit_trigger_function, hskip]
  · intro hskip
    unfold audit_trigger_function
    rw [if_neg hskip]
    cases hop : ctx.op with
    | ins =>
      refine ⟨_, rfl, rfl, rfl, rfl, rfl, rfl, rfl, ?_, ?_, ?_⟩
      · intro _
        exact ⟨rfl, rfl, rfl⟩
      · intro hc
        exact absurd hc (by decide)
      · intro hc
        exact absurd hc (by decide)
    | upd =>
      refine ⟨_, rfl, rfl, rfl, rfl, rfl, rfl, rfl, ?_, ?_, ?_⟩
      · intro hc
        exact absurd hc (by decide)
      · intro _
        exact ⟨rfl, rfl, rfl⟩
      · intro hc
        exact absurd hc (by decide)
    | del =>
      refine ⟨_, rfl, rfl, rfl, rfl, rfl, rfl, rfl, ?_, ?_, ?_⟩
      · intro hc
        exact absurd hc (by decide)
      · intro hc
        exact absurd hc (by decide)
      · intro _
        exact ⟨rfl, rfl, rfl⟩

end Audit

namespace Audit

/-- C9 witness: a concrete frontend INSERT leaves audit_log unchanged, and
a concrete UPDATE appends exactly one fully populated audit row. -/
theorem audit_trigger_frontend_skip_and_log_witness :
    audit_trigger_function sampleFrontendCtx [] = (sampleFrontendCtx.newRow, []) ∧
      ∃ e, (audit_trigger_function sampleUpdateCtx []).2 = [] ++ [e] ∧
        e.tableName = sampleUpdateCtx.tg_table_name ∧
        e.operation = opString sampleUpdateCtx.op ∧
        e.userName = sampleUpdateCtx.currentUser ∧
        e.applicationName = sampleUpdateCtx.appName ∧
        e.clientAddress = sampleUpdateCtx.clientAddr ∧
        e.transactionId = sampleUpdateCtx.txId ∧
        (sampleUpdateCtx.op = .ins → e.oldData = none ∧
          e.newData = some sampleUpdateCtx.newRow ∧
          e.rowId = rowIdOf sampleUpdateCtx.pkColumn sampleUpdateCtx.newRow) ∧
        (sampleUpdateCtx.op = .upd → e.oldData = some sampleUpdateCtx.oldRow ∧
          e.newData = some sampleUpdateCtx.newRow ∧
          e.rowId = rowIdOf sampleUpdateCtx.pkColumn sampleUpdateCtx.newRow) ∧
        (sampleUpdateCtx.op = .del → e.oldData = some sampleUpdateCtx.oldRow ∧
          e.newData = none ∧
          e.rowId = rowIdOf sampleUpdateCtx.pkColumn sampleUpdateCtx.oldRow) :=
  ⟨(audit_trigger_frontend_skip_and_log sampleFrontendCtx []).1 (by decide),
    (audit_trigger_frontend_skip_and_log sampleUpdateCtx []).2 (by decide)⟩

theorem mem_changedEntries (oldJ newJ : Row) (key : String) (o n : Option String) :
    (key, o, n) ∈ changedEntries oldJ newJ ↔
      ((∃ v, (key, v) ∈ newJ) ∧ o = jsonbGet oldJ key ∧
        n = jsonbGet newJ key ∧ o ≠ n) := by
  unfold changedEntries
  rw [List.mem_filterMap]
  constructor
  · rintro ⟨kv, hkv, hf⟩
    by_cases hcond : jsonbGet oldJ kv.1 = jsonbGet newJ kv.1
    · rw [if_pos hcond] at hf
      cases hf
    · rw [if_neg hcond] at hf
      simp only [Option.some.injEq, Prod.mk.injEq] at hf
      obtain ⟨h1, h2, h3⟩ := hf
      subst h1
      exact ⟨⟨kv.2, hkv⟩, h2.symm, h3.symm, by rw [← h2, ← h3]; exact hcond⟩
  · rintro ⟨⟨v, hv⟩, ho, hn, hne⟩
    refine ⟨(key, v), hv, ?_⟩
    rw [if_neg (by rw [← ho, ← hn]; exact hne)]
    rw [← ho, ← hn]

theorem cfEntries_agg (oldJ newJ : Row) :
    cfEntries (aggChangedFields oldJ newJ) = changedEntries oldJ newJ := by
  unfold aggChangedFields cfEntries
  cases h : changedEntries oldJ newJ with
  | nil => simp
  | cons a l => simp

/-- C10: for every audited UPDATE the changed_fields value written to
audit_log maps exactly those column keys whose old value is distinct from
their new value to the pair of old and new values, and contains no key whose
value is unchanged; for audited INSERT and DELETE operations changed_fields
remains the empty object. -/
theorem audit_changed_fields_exact (ctx : TriggerCtx) (log : List AuditEntry)
    (hskip : ¬(ctx.op = .ins ∧ ctx.appName = some "frontend")) :
    ∃ e, (audit_trigger_function ctx log).2 = log ++ [e] ∧
      (ctx.op = .upd →
        ∀ key o n, ((key, o, n) ∈ cfEntries e.changedFields ↔
          ((∃ v, (key, v) ∈ ctx.newRow) ∧ o = jsonbGet ctx.oldRow key ∧
            n = jsonbGet ctx.newRow key ∧ o ≠ n))) ∧
      (ctx.op ≠ .upd → e.changedFields = some []) := by
  unfold audit_trigger_function
  rw [if_neg hskip]
  cases hop : ctx.op with
  | ins =>
    refine ⟨_, rfl, ?_, ?_⟩
    · intro hc
      exact absurd hc (by decide)
    · intro _
      rfl
  | upd =>
    refine ⟨_, rfl, ?_, ?_⟩
    · intro _
      intro key o n
      show (key, o, n) ∈ cfEntries (changedFieldsFor .upd ctx.oldRow ctx.newRow) ↔ _
      rw [show changedFieldsFor .upd ctx.oldRow ctx.newRow =
        aggChangedFields ctx.oldRow ctx.newRow from rfl]
      rw [cfEntries_agg]
      exact mem_changedEntries ctx.oldRow ctx.newRow key o n
    · intro hc
      exact absurd rfl hc
  | del =>
    refine ⟨_, rfl, ?_, ?_⟩
    · intro hc
      exact absurd hc (by decide)
    · intro _
      rfl

/-- C10 witness: a concrete UPDATE changing the name column logs
changed_fields holding exactly that key. -/
theorem audit_changed_fields_exact_witness :
    ∃ e, (audit_trigger_function sampleUpdateCtx []).2 = [] ++ [e] ∧
      (sampleUpdateCtx.op = .upd →
        ∀ key o n, ((key, o, n) ∈ cfEntries e.changedFields ↔
          ((∃ v, (key, v) ∈ sampleUpdateCtx.newRow) ∧
            o = jsonbGet sampleUpdateCtx.oldRow key ∧
            n = jsonbGet sampleUpdateCtx.newRow key ∧ o ≠ n))) ∧
      (sampleUpdateCtx.op ≠ .upd → e.changedFields = some []) :=
  audit_changed_fields_exact sampleUpdateCtx [] (by decide)

end Audit
